import Mathlib

/-!
# Verification of `scripts/clean-article-inline-styles.py`

Shallow embedding of the blog-post inline-style cleaner.  The script applies
a fixed ordered table of `(pattern, replacement)` pairs to the text of each
HTML file with Python's `re.sub`, writes the new text back when it changed
(unless `--dry-run`), and reports per-file and summary status lines.

The regular expressions in the table use only these constructs:
literal characters, backslash-escaped literals (`\.`, `\(`, `\)`),
the negated-class wildcard `[^c]*`, and capturing groups `([^c]*)`
referenced in replacements as `\1`, `\2`.  In every pattern of the table
each wildcard `[^c]*` is immediately followed by the literal character `c`
it excludes, so Python's greedy matching never needs to backtrack: the
wildcard always consumes exactly the maximal run of characters different
from `c`.  The embedding below therefore compiles each pattern to a token
list and matches by maximal munch, which on this rule table coincides with
Python's semantics.
-/

namespace CleanArticle

/-- A compiled token of one of the script's regular expressions:
a literal character, or a greedy negated-class wildcard `[^excl]*`
(capturing when `cap` is true). -/
inductive Tok where
  | litc (c : Char)
  | star (excl : Char) (cap : Bool)
deriving DecidableEq, Repr

/-- A compiled piece of a replacement template: a literal character or a
back-reference `\n` to capture group `n`. -/
inductive RepItem where
  | litc (c : Char)
  | group (n : Nat)
deriving DecidableEq, Repr

/-- Compile a pattern string (the exact Python regex source) to tokens.
Handles exactly the constructs occurring in `REPLACEMENTS`: `\c` is the
literal character `c`, `([^c]*)` a capturing wildcard, `[^c]*` a
non-capturing wildcard, anything else a literal character. -/
def compilePat : List Char → List Tok
  | [] => []
  | '\\' :: c :: rest => Tok.litc c :: compilePat rest
  | '(' :: '[' :: '^' :: c :: ']' :: '*' :: ')' :: rest =>
      Tok.star c true :: compilePat rest
  | '[' :: '^' :: c :: ']' :: '*' :: rest =>
      Tok.star c false :: compilePat rest
  | c :: rest => Tok.litc c :: compilePat rest

/-- Compile a replacement template string: `\d` is a back-reference to
group `d`, anything else a literal character. -/
def compileRep : List Char → List RepItem
  | [] => []
  | '\\' :: c :: rest =>
      if c.isDigit then RepItem.group (c.toNat - 48) :: compileRep rest
      else RepItem.litc c :: compileRep rest
  | c :: rest => RepItem.litc c :: compileRep rest

/-- Match a token list against the beginning of `s`.  On success returns the
captured runs (in order of the capturing groups) and the remaining suffix.
A wildcard consumes the maximal run of characters different from its
excluded character (see the header comment: on this rule table that is
exactly Python's greedy semantics). -/
def matchToks : List Tok → List Char → Option (List (List Char) × List Char)
  | [], s => some ([], s)
  | Tok.litc _ :: _, [] => none
  | Tok.litc c :: ts, x :: xs => if x = c then matchToks ts xs else none
  | Tok.star e cap :: ts, s =>
      match matchToks ts (s.dropWhile (· ≠ e)) with
      | none => none
      | some (caps, r) =>
          some ((if cap then [s.takeWhile (· ≠ e)] else []) ++ caps, r)

/-- Instantiate a replacement template with the captured runs of a match
(`\1` is the first capture, as in Python). -/
def applyRep (caps : List (List Char)) : List RepItem → List Char
  | [] => []
  | RepItem.litc c :: rs => c :: applyRep caps rs
  | RepItem.group n :: rs => caps.getD (n - 1) [] ++ applyRep caps rs

/-- The scan of Python's `re.sub`: walk the text left to right; at each
position try to match; on a non-empty match emit the instantiated
replacement and resume after the matched segment; on an empty match emit
the replacement, then the current character, and advance one position; with
no match emit the current character and advance.  At the end of the text a
final empty match still emits its replacement.  `fuel` bounds the
recursion; `s.length + 1` is always enough since every step consumes at
least one character of `s`. -/
def subAux (ts : List Tok) (rs : List RepItem) : Nat → List Char → List Char
  | 0, _ => []
  | _ + 1, [] =>
      match matchToks ts [] with
      | some (caps, _) => applyRep caps rs
      | none => []
  | fuel + 1, c :: cs =>
      match matchToks ts (c :: cs) with
      | some (caps, rest) =>
          if rest.length < cs.length + 1 then
            applyRep caps rs ++ subAux ts rs fuel rest
          else
            applyRep caps rs ++ c :: subAux ts rs fuel cs
      | none => c :: subAux ts rs fuel cs

/-- `re.sub(pattern, replacement, content)` for the constructs used by the
script: replace every non-overlapping occurrence of `pattern` in `content`
by the instantiated `replacement`. -/
def reSub (pattern replacement content : String) : String :=
  String.mk (subAux (compilePat pattern.data) (compileRep replacement.data)
    (content.data.length + 1) content.data)

/-- The script's `REPLACEMENTS` table, verbatim: the ordered list of
(raw regex pattern, replacement) pairs from
`scripts/clean-article-inline-styles.py`, lines 21-151. -/
def REPLACEMENTS : List (String × String) := [
  ("<article class=\"article-content container\">",
   "<article class=\"article-content\">"),
  ("<div class=\"key-takeaways\" style=\"[^\"]*\">",
   "<div class=\"key-takeaways\">"),
  ("<h3 style=\"color: white; margin-bottom: 1rem;\">Key Takeaways</h3>",
   "<h3>Key Takeaways</h3>"),
  ("<ul style=\"list-style: none; padding: 0;\">",
   "<ul>"),
  ("<li style=\"margin-bottom: 0\\.75rem;\">",
   "<li>"),
  ("<div class=\"info-box\" style=\"[^\"]*\">",
   "<div class=\"info-box\">"),
  ("<div style=\"background: #fef2f2; border-left: 4px solid #ef4444; padding: 1\\.5rem; margin: 1\\.5rem 0; border-radius: 0 8px 8px 0;\">",
   "<div class=\"warning-box\">"),
  ("<div style=\"background: #f0fdf4; border-left: 4px solid #22c55e;[^\"]*\">",
   "<div class=\"success-box\">"),
  ("<table style=\"[^\"]*\">",
   "<table>"),
  ("<thead style=\"[^\"]*\">",
   "<thead>"),
  ("<th style=\"[^\"]*\">",
   "<th>"),
  ("<td style=\"[^\"]*\">",
   "<td>"),
  ("<tr style=\"[^\"]*\">",
   "<tr>"),
  ("<div class=\"cta-box\" style=\"[^\"]*\">",
   "<div class=\"cta-box\">"),
  ("<h3 style=\"color: white; font-size: 2rem; margin: 0 0 1rem 0;\">",
   "<h3>"),
  ("<p style=\"font-size: 1\\.2rem; margin-bottom: 1\\.5rem;\">",
   "<p>"),
  ("<a href=\"([^\"]*)\" class=\"cta-button\" style=\"[^\"]*\">",
   "<a href=\"\\1\" class=\"cta-button\">"),
  ("<div class=\"related-posts\" style=\"[^\"]*\">",
   "<div class=\"related-posts\">"),
  ("<h3 style=\"font-size: 1\\.5rem; margin-bottom: 1\\.5rem;\">([^<]*)</h3>",
   "<h3>\\1</h3>"),
  ("<div style=\"display: grid; grid-template-columns: repeat\\(auto-fit, minmax\\(300px, 1fr\\)\\); gap: 1\\.5rem;\">",
   "<div class=\"related-posts-grid\">"),
  ("<div style=\"border: 1px solid #e2e8f0; border-radius: 8px; padding: 1\\.5rem;\">",
   "<div class=\"related-post-card\">"),
  ("<h4 style=\"margin: 0 0 0\\.5rem 0;\"><a href=\"([^\"]*)\" style=\"color: #0ea5e9;\">([^<]*)</a></h4>",
   "<h4><a href=\"\\1\">\\2</a></h4>"),
  ("<p style=\"margin: 0; color: #64748b;\">",
   "<p>"),
  ("<div class=\"step\" style=\"[^\"]*\">",
   "<div class=\"step\">"),
  ("<span class=\"step-number\" style=\"[^\"]*\">",
   "<span class=\"step-number\">"),
  ("<div class=\"related-grid\" style=\"[^\"]*\">",
   "<div class=\"related-grid\">"),
  ("<p class=\"cta-subtext\" style=\"[^\"]*\">",
   "<p class=\"cta-subtext\">")
]

/-- The in-memory transformation of `clean_html_file` (lines 157-167):
fold the rule table, in order, over the document text; the changed flag is
the comparison of the final text with the original. -/
def rewriteResult (content : String) : String × Bool :=
  let final := REPLACEMENTS.foldl (fun cur pr => reSub pr.1 pr.2 cur) content
  (final, decide (final ≠ content))

/-- The rewritten text alone. -/
def rewriteText (content : String) : String := (rewriteResult content).1

/-- The rewrite loop exactly as §4.2 of the specification words it:
initialize `current` to the document text; for each rule in table order
replace every non-overlapping match of its matcher in `current`. -/
def applyRulesInOrder : List (String × String) → String → String
  | [], current => current
  | rule :: rules, current =>
      applyRulesInOrder rules (reSub rule.1 rule.2 current)

/-!
## Filesystem and driver model

Paths are plain strings.  A file entry maps a path to `some content`, or to
`none` for a file that is present on disk but whose bytes cannot be read or
decoded as UTF-8 (the exception path of `clean_html_file`).  The store
models the posts tree the script works on; `rglob("*.html")` enumerates its
entries with the `.html` suffix.
-/

/-- The file store: an association list from path to readable content
(`none` = present but unreadable/undecodable). -/
structure FS where
  files : List (String × Option String)
deriving DecidableEq, Repr

/-- `filepath.read_text(...)`: `some` content on success, `none` when the
read or the decode raises. -/
def FS.readFile (fs : FS) (p : String) : Option String :=
  match fs.files.lookup p with
  | some c => c
  | none => none

/-- `filepath.exists()`. -/
def FS.existsFile (fs : FS) (p : String) : Bool :=
  (fs.files.lookup p).isSome

/-- `filepath.write_text(content, ...)`: replace the content stored at `p`
wholesale. -/
def FS.writeFile (fs : FS) (p : String) (c : String) : FS :=
  ⟨fs.files.map (fun e => if e.1 = p then (p, some c) else e)⟩

/-- The text of the exception bound in `clean_html_file`'s handler,
abstracted as a constant (its exact wording depends on the host runtime). -/
def exnText : String := "read error"

/-- The line printed by `clean_html_file`'s exception handler:
`f"Error processing (filepath): (e)"`. -/
def errorLine (p : String) : String :=
  "Error processing " ++ p ++ ": " ++ exnText

/-- `clean_html_file(filepath, dry_run)` (lines 154-170): read the file; on
failure print the error and report no change; otherwise rewrite, persist
when changed and not a dry run, and return the changed flag.  The result is
(new store, returned flag, printed lines). -/
def clean_html_file (fs : FS) (filepath : String) (dry_run : Bool) :
    FS × Bool × List String :=
  match fs.readFile filepath with
  | none => (fs, false, [errorLine filepath])
  | some content =>
      let r := rewriteResult content
      if r.2 then
        (if dry_run then fs else fs.writeFile filepath r.1, true, [])
      else
        (fs, false, [])

/-- The separator line `"-" * 50`. -/
def sepLine : String :=
  "--------------------------------------------------"

/-- `list(POSTS_DIR.rglob("*.html"))`: every path in the store with the
`.html` suffix, in store order. -/
def rglobHtml (fs : FS) : List String :=
  (fs.files.map (fun e => e.1)).filter (fun p => p.endsWith ".html")

/-- Python's `sorted` on paths: ascending lexicographic order of the path
strings, modelled by insertion sort over `String`'s linear order. -/
def sortPaths (l : List String) : List String :=
  l.insertionSort (· ≤ ·)

/-- The status word for a changed file: `"Would update" if args.dry_run
else "Updated"`. -/
def actionWord (dry_run : Bool) : String :=
  if dry_run then "Would update" else "Updated"

/-- The per-file loop of batch mode (lines 196-205): process the files in
order, printing one status line each (plus any error line printed inside
`clean_html_file`), and count the updated files.  Result: (final store,
updated count, printed lines). -/
def batchAux (dry_run : Bool) : FS → List String → FS × Nat × List String
  | fs, [] => (fs, 0, [])
  | fs, p :: rest =>
      let r := clean_html_file fs p dry_run
      let line :=
        if r.2.1 then "  " ++ actionWord dry_run ++ ": " ++ p
        else "  No changes: " ++ p
      let t := batchAux dry_run r.1 rest
      (t.1, (if r.2.1 then 1 else 0) + t.2.1, r.2.2 ++ [line] ++ t.2.2)

/-- The changed flags reported for the files of a batch run, in order,
threading the store through the writes exactly as the loop does. -/
def batchFlags (dry_run : Bool) : FS → List String → List Bool
  | _, [] => []
  | fs, p :: rest =>
      let r := clean_html_file fs p dry_run
      r.2.1 :: batchFlags dry_run r.1 rest

/-- `main()` (lines 173-209): the single-file mode when `single` is given,
otherwise the batch mode over the sorted `.html` files.  Result:
(final store, every printed line in order). -/
def main (fs : FS) (dry_run : Bool) (single : Option String) :
    FS × List String :=
  let header := ["Cleaning inline styles from blog posts...", sepLine]
  match single with
  | some s =>
      if fs.existsFile s then
        let r := clean_html_file fs s dry_run
        let status :=
          if dry_run then "Would update"
          else if r.2.1 then "Updated" else "No changes"
        (r.1, header ++ r.2.2 ++ ["  " ++ status ++ ": " ++ s])
      else
        (fs, header ++ ["  File not found: " ++ s])
  | none =>
      let html_files := rglobHtml fs
      let t := batchAux dry_run fs (sortPaths html_files)
      (t.1, header ++ t.2.2 ++
        [sepLine,
         actionWord dry_run ++ " " ++ toString t.2.1 ++ "/" ++
           toString html_files.length ++ " posts"])

/-!
## Measures used by the length invariant

Every rule of the table replaces each match by a strictly shorter segment.
The measures below make that counting precise: a match of a compiled
pattern consumes one character per literal token plus the wildcard runs,
while the instantiated replacement contributes one character per literal
item plus the referenced captures.
-/

/-- Number of literal tokens of a compiled pattern: a lower bound on the
length of any text segment it matches. -/
def litCount : List Tok → Nat
  | [] => 0
  | Tok.litc _ :: ts => litCount ts + 1
  | Tok.star _ _ :: ts => litCount ts

/-- Total length of a list of captured runs. -/
def capsLen : List (List Char) → Nat
  | [] => 0
  | c :: cs => c.length + capsLen cs

/-- Number of literal items of a compiled replacement. -/
def repLitCount : List RepItem → Nat
  | [] => 0
  | RepItem.litc _ :: rs => repLitCount rs + 1
  | RepItem.group _ :: rs => repLitCount rs

/-- The group indices referenced by a compiled replacement, in order. -/
def groupRefs : List RepItem → List Nat
  | [] => []
  | RepItem.litc _ :: rs => groupRefs rs
  | RepItem.group n :: rs => n :: groupRefs rs

/-- Total length contributed by a list of group references. -/
def refsLen (caps : List (List Char)) : List Nat → Nat
  | [] => 0
  | n :: ns => (caps.getD (n - 1) []).length + refsLen caps ns

/-- Whether a compiled pattern begins with a literal token (so it never
matches the empty segment). -/
def headIsLit : List Tok → Bool
  | Tok.litc _ :: _ => true
  | _ => false

/-- The shrinking condition one rule must satisfy: its pattern starts with
a literal, its replacement has strictly fewer literal characters than the
pattern, and its group references are one of the shapes occurring in the
table (none, `\1`, or `\1` then `\2`, each at most once). -/
def ruleOK (ts : List Tok) (rs : List RepItem) : Bool :=
  headIsLit ts && decide (repLitCount rs < litCount ts) &&
    (decide (groupRefs rs = []) || decide (groupRefs rs = [1]) ||
      decide (groupRefs rs = [1, 2]))

/-!
## Lemmas: a match is at least as long as its literal tokens and captures
-/

theorem length_takeWhile_add_dropWhile (p : Char → Bool) (l : List Char) :
    (l.takeWhile p).length + (l.dropWhile p).length = l.length := by
  conv_rhs => rw [← List.takeWhile_append_dropWhile (p := p) (l := l)]
  exact (List.length_append _ _).symm

theorem matchToks_le (ts : List Tok) :
    ∀ s caps rest, matchToks ts s = some (caps, rest) →
      litCount ts + capsLen caps + rest.length ≤ s.length := by
  induction ts with
  | nil =>
      intro s caps rest h
      simp only [matchToks, Option.some.injEq, Prod.mk.injEq] at h
      obtain ⟨h1, h2⟩ := h
      subst h1; subst h2
      simp [litCount, capsLen]
  | cons t ts ih =>
      intro s caps rest h
      cases t with
      | litc c =>
          cases s with
          | nil => simp [matchToks] at h
          | cons x xs =>
              by_cases hx : x = c
              · simp only [matchToks, hx, if_pos rfl] at h
                have := ih xs caps rest h
                simp only [litCount, List.length_cons]
                omega
              · simp [matchToks, hx] at h
      | star e cap =>
          simp only [matchToks] at h
          cases hm : matchToks ts (s.dropWhile (· ≠ e)) with
          | none => rw [hm] at h; simp at h
          | some pr =>
              obtain ⟨caps', r⟩ := pr
              rw [hm] at h
              simp only [Option.some.injEq, Prod.mk.injEq] at h
              obtain ⟨h1, h2⟩ := h
              have hrec := ih _ caps' r hm
              have hlen := length_takeWhile_add_dropWhile (· ≠ e) s
              have hr : rest.length = r.length := by rw [← h2]
              cases cap with
              | true =>
                  have hc : capsLen caps =
                      (s.takeWhile (· ≠ e)).length + capsLen caps' := by
                    rw [← h1]; simp [capsLen]
                  simp only [litCount]
                  omega
              | false =>
                  have hc : capsLen caps = capsLen caps' := by
                    rw [← h1]; simp
                  simp only [litCount]
                  omega

theorem applyRep_length (caps : List (List Char)) :
    ∀ rs, (applyRep caps rs).length =
      repLitCount rs + refsLen caps (groupRefs rs) := by
  intro rs
  induction rs with
  | nil => simp [applyRep, repLitCount, groupRefs, refsLen]
  | cons r rs ih =>
      cases r with
      | litc c =>
          simp only [applyRep, repLitCount, groupRefs, List.length_cons, ih]
          omega
      | group n =>
          simp only [applyRep, repLitCount, groupRefs, refsLen,
            List.length_append, ih]
          omega

theorem refsLen_le (caps : List (List Char)) (refs : List Nat)
    (h : refs = [] ∨ refs = [1] ∨ refs = [1, 2]) :
    refsLen caps refs ≤ capsLen caps := by
  rcases h with h | h | h <;> subst h
  · simp [refsLen]
  · cases caps with
    | nil => simp [refsLen, capsLen, List.getD]
    | cons a l => simp [refsLen, capsLen, List.getD]
  · cases caps with
    | nil => simp [refsLen, capsLen, List.getD]
    | cons a l =>
        cases l with
        | nil => simp [refsLen, capsLen, List.getD]
        | cons b l2 => simp [refsLen, capsLen, List.getD]

theorem matchToks_nil_none (ts : List Tok) (h : headIsLit ts = true) :
    matchToks ts [] = none := by
  cases ts with
  | nil => simp [headIsLit] at h
  | cons t ts =>
      cases t with
      | litc c => rfl
      | star e cap => simp [headIsLit] at h

theorem one_le_litCount (ts : List Tok) (h : headIsLit ts = true) :
    1 ≤ litCount ts := by
  cases ts with
  | nil => simp [headIsLit] at h
  | cons t ts =>
      cases t with
      | litc c => simp [litCount]
      | star e cap => simp [headIsLit] at h

/-!
## The scan of one rule never lengthens the text
-/

theorem subAux_len (ts : List Tok) (rs : List RepItem)
    (hOK : ruleOK ts rs = true) :
    ∀ fuel s, s.length < fuel →
      subAux ts rs fuel s = s ∨ (subAux ts rs fuel s).length < s.length := by
  have hparts : headIsLit ts = true ∧ repLitCount rs < litCount ts ∧
      (groupRefs rs = [] ∨ groupRefs rs = [1] ∨ groupRefs rs = [1, 2]) := by
    simp only [ruleOK, Bool.and_eq_true, Bool.or_eq_true,
      decide_eq_true_eq] at hOK
    tauto
  obtain ⟨hlit, hshort, hrefs⟩ := hparts
  intro fuel
  induction fuel with
  | zero => intro s hs; omega
  | succ fuel ih =>
      intro s hs
      cases s with
      | nil =>
          left
          simp [subAux, matchToks_nil_none ts hlit]
      | cons c cs =>
          cases hm : matchToks ts (c :: cs) with
          | none =>
              rcases ih cs (by simpa using Nat.lt_of_succ_lt_succ hs) with
                heq | hlt
              · left; simp [subAux, hm, heq]
              · right; simp only [subAux, hm, List.length_cons]; omega
          | some pr =>
              obtain ⟨caps, rest⟩ := pr
              right
              have hle := matchToks_le ts (c :: cs) caps rest hm
              have h1 : 1 ≤ litCount ts := one_le_litCount ts hlit
              have hrest : rest.length < cs.length + 1 := by
                simp only [List.length_cons] at hle; omega
              have hrep : (applyRep caps rs).length < litCount ts + capsLen caps := by
                rw [applyRep_length]
                have := refsLen_le caps (groupRefs rs) hrefs
                omega
              have hsub : (subAux ts rs fuel rest).length ≤ rest.length := by
                rcases ih rest (by omega) with heq | hlt
                · rw [heq]
                · omega
              simp only [subAux, hm, if_pos hrest, List.length_append,
                List.length_cons]
              simp only [List.length_cons] at hle
              omega

theorem reSub_len (p r : String)
    (hOK : ruleOK (compilePat p.data) (compileRep r.data) = true)
    (s : String) :
    reSub p r s = s ∨ (reSub p r s).length < s.length := by
  rcases subAux_len (compilePat p.data) (compileRep r.data) hOK
      (s.data.length + 1) s.data (Nat.lt_succ_self _) with heq | hlt
  · left
    show String.mk _ = s
    rw [heq]
  · right
    show (String.mk _).length < s.length
    exact hlt

set_option maxRecDepth 40000 in
/-- Every rule of the concrete table satisfies the shrinking condition. -/
theorem replacements_ok :
    ∀ pr ∈ REPLACEMENTS,
      ruleOK (compilePat pr.1.data) (compileRep pr.2.data) = true := by
  decide

theorem foldl_eq_applyRulesInOrder :
    ∀ (rules : List (String × String)) (d : String),
      rules.foldl (fun cur pr => reSub pr.1 pr.2 cur) d =
        applyRulesInOrder rules d := by
  intro rules
  induction rules with
  | nil => intro d; rfl
  | cons r rules ih => intro d; simp [applyRulesInOrder, List.foldl, ih]

theorem applyRulesInOrder_len :
    ∀ (rules : List (String × String)),
      (∀ pr ∈ rules,
        ruleOK (compilePat pr.1.data) (compileRep pr.2.data) = true) →
      ∀ d, applyRulesInOrder rules d = d ∨
        (applyRulesInOrder rules d).length < d.length := by
  intro rules
  induction rules with
  | nil => intro _ d; left; rfl
  | cons r rules ih =>
      intro hall d
      have hr := reSub_len r.1 r.2 (hall r (List.mem_cons_self r rules)) d
      have htail := ih (fun pr hpr => hall pr (List.mem_cons_of_mem r hpr))
        (reSub r.1 r.2 d)
      rcases hr with heq | hlt
      · rcases htail with heq2 | hlt2
        · left; simp only [applyRulesInOrder]; rw [heq2, heq]
        · right; simp only [applyRulesInOrder]; rw [heq] at hlt2 ⊢; exact hlt2
      · rcases htail with heq2 | hlt2
        · right; simp only [applyRulesInOrder]; rw [heq2]; exact hlt
        · right; simp only [applyRulesInOrder]; omega

/-!
## Helper lemmas about the driver
-/

theorem clean_html_file_dry_fst (fs : FS) (p : String) :
    (clean_html_file fs p true).1 = fs := by
  cases hr : fs.readFile p with
  | none => simp [clean_html_file, hr]
  | some content =>
      by_cases h2 : (rewriteResult content).2 <;>
        simp [clean_html_file, hr, h2]

theorem batchAux_dry_fst :
    ∀ (l : List String) (fs : FS), (batchAux true fs l).1 = fs := by
  intro l
  induction l with
  | nil => intro fs; rfl
  | cons p rest ih =>
      intro fs
      simp only [batchAux, ih, clean_html_file_dry_fst]

theorem batchAux_updated_count (dry_run : Bool) :
    ∀ (l : List String) (fs : FS),
      (batchAux dry_run fs l).2.1 =
        List.countP (fun b => b) (batchFlags dry_run fs l) := by
  intro l
  induction l with
  | nil => intro fs; rfl
  | cons p rest ih =>
      intro fs
      simp only [batchAux, batchFlags, List.countP_cons, ih]
      cases hc : (clean_html_file fs p dry_run).2.1 <;> simp [hc] <;> omega

theorem getLast?_append_two {α : Type} (l : List α) (a b : α) :
    (l ++ [a, b]).getLast? = some b := by
  rw [List.getLast?_append_cons l a [b]]
  rfl

/-!
## The claims
-/

/-- C1: for every input document text, the rewrite of `clean_html_file`
starts from the original text and applies each rule of `REPLACEMENTS`
exactly once, in table order, replacing every non-overlapping match of the
rule's matcher in the current text (the recursion `applyRulesInOrder`);
the changed flag is true exactly when the final text differs from the
original. -/
theorem clean_rewrite_follows_rule_table (d : String) :
    (rewriteResult d).1 = applyRulesInOrder REPLACEMENTS d ∧
      ((rewriteResult d).2 = true ↔ (rewriteResult d).1 ≠ d) := by
  refine ⟨foldl_eq_applyRulesInOrder REPLACEMENTS d, ?_⟩
  simp [rewriteResult]

/-- C2 (counterexample): the full rule-table rewrite is not idempotent.
On `<table style="abc<table style="xyz">">` the first pass replaces only
the inner `<table style="xyz">`, producing `<table style="abc<table>">`,
which the table rule then matches entirely on a second pass. -/
theorem rewrite_not_idempotent_cex :
    rewriteText "<table style=\"abc<table style=\"xyz\">\">" =
        "<table style=\"abc<table>\">" ∧
      rewriteText "<table style=\"abc<table>\">" = "<table>" ∧
      rewriteText (rewriteText "<table style=\"abc<table style=\"xyz\">\">") ≠
        rewriteText "<table style=\"abc<table style=\"xyz\">\">" :=
  ⟨by decide, by decide, by decide⟩

/-- C2 (amended): the rewrite is idempotent on every document the first
pass leaves unchanged: if `rewrite(D).text = D` then a second pass also
returns `D`.  (Unrestricted idempotence fails; see
`rewrite_not_idempotent_cex`.) -/
theorem rewrite_idempotent_on_fixed_points (d : String)
    (h : rewriteText d = d) :
    rewriteText (rewriteText d) = rewriteText d := by
  rw [h, h]

theorem rewrite_idempotent_on_fixed_points_witness :
    rewriteText "<p>plain text</p>" = "<p>plain text</p>" ∧
      rewriteText (rewriteText "<p>plain text</p>") =
        rewriteText "<p>plain text</p>" :=
  ⟨by decide, rewrite_idempotent_on_fixed_points _ (by decide)⟩

/-- C3: dry-run purity — with the preview flag set, a run (single-file or
batch) leaves the content of every file in the store untouched. -/
theorem dry_run_purity (fs : FS) (single : Option String) :
    (main fs true single).1 = fs := by
  cases single with
  | some s =>
      by_cases h : fs.existsFile s
      · simp [main, h, clean_html_file_dry_fst]
      · simp [main, h]
  | none => simp [main, batchAux_dry_fst]

/-- C4: a failed read is handled locally — `clean_html_file` prints one
error line carrying the file path, reports no change, leaves the store
untouched, and the batch loop still processes every remaining file exactly
as it would have. -/
theorem read_failure_handled_locally (fs : FS) (p : String) (dry_run : Bool)
    (rest : List String) (h : fs.readFile p = none) :
    clean_html_file fs p dry_run = (fs, false, [errorLine p]) ∧
      batchAux dry_run fs (p :: rest) =
        ((batchAux dry_run fs rest).1, (batchAux dry_run fs rest).2.1,
          errorLine p :: ("  No changes: " ++ p) ::
            (batchAux dry_run fs rest).2.2) := by
  have hc : clean_html_file fs p dry_run = (fs, false, [errorLine p]) := by
    simp [clean_html_file, h]
  exact ⟨hc, by simp [batchAux, hc]⟩

theorem read_failure_handled_locally_witness :
    FS.readFile ⟨[("c.html", none), ("a.html", some "<p>t</p>")]⟩ "c.html" =
        none ∧
      (clean_html_file ⟨[("c.html", none), ("a.html", some "<p>t</p>")]⟩
          "c.html" false =
        (⟨[("c.html", none), ("a.html", some "<p>t</p>")]⟩, false,
          [errorLine "c.html"]) ∧
      batchAux false ⟨[("c.html", none), ("a.html", some "<p>t</p>")]⟩
          ["c.html", "a.html"] =
        ((batchAux false ⟨[("c.html", none), ("a.html", some "<p>t</p>")]⟩
            ["a.html"]).1,
         (batchAux false ⟨[("c.html", none), ("a.html", some "<p>t</p>")]⟩
            ["a.html"]).2.1,
         errorLine "c.html" :: ("  No changes: " ++ "c.html") ::
           (batchAux false ⟨[("c.html", none), ("a.html", some "<p>t</p>")]⟩
              ["a.html"]).2.2)) :=
  ⟨by decide,
    read_failure_handled_locally ⟨[("c.html", none),
      ("a.html", some "<p>t</p>")]⟩ "c.html" false ["a.html"] (by decide)⟩

/-- C5: in single-file mode with a path that does not exist, the program
prints the not-found message for that path and ends with the store intact:
no rewriter invocation, no write. -/
theorem single_file_not_found (fs : FS) (dry_run : Bool) (s : String)
    (h : fs.existsFile s = false) :
    main fs dry_run (some s) =
      (fs, ["Cleaning inline styles from blog posts...", sepLine,
            "  File not found: " ++ s]) := by
  simp [main, h]

theorem single_file_not_found_witness :
    FS.existsFile ⟨[("a.html", some "x")]⟩ "missing.html" = false ∧
      main ⟨[("a.html", some "x")]⟩ false (some "missing.html") =
        (⟨[("a.html", some "x")]⟩,
         ["Cleaning inline styles from blog posts...", sepLine,
          "  File not found: missing.html"]) :=
  ⟨by decide, single_file_not_found _ false _ (by decide)⟩

/-- C6 (code behaviour at the failing input): in single-file mode with the
dry-run flag, a file whose rewrite reports changed = false is printed as
"Would update", not "No changes" — the conditional on line 186 tests
`dry_run` before `changed`.  Batch mode prints "No changes" for the same
file. -/
theorem single_dry_run_unchanged_prints_would_update :
    (rewriteResult "<p>plain text</p>").2 = false ∧
      (main ⟨[("a.html", some "<p>plain text</p>")]⟩ true
          (some "a.html")).2 =
        ["Cleaning inline styles from blog posts...", sepLine,
         "  Would update: a.html"] :=
  ⟨by decide, by decide⟩

/-- C7 (counterexample): the batch summary line is not of the bare form
`"<Updated|Would update> <updated>/<total>"`: the program appends
`" posts"`.  With an empty store the final line is `"Updated 0/0 posts"`,
not `"Updated 0/0"`. -/
theorem summary_line_cex :
    (main ⟨[]⟩ false none).2.getLast? = some "Updated 0/0 posts" ∧
      "Updated 0/0 posts" ≠ "Updated 0/0" :=
  ⟨by decide, by decide⟩

/-- C7 (amended): after the last file, batch mode prints exactly one
summary line `"<Updated|Would update> <updated>/<total> posts"`, where
`updated` counts the processed files whose rewrite reported changed =
true, `total` is the number of discovered `.html` files, and the word is
"Would update" iff the dry-run flag is set. -/
theorem summary_line_amended (fs : FS) (dry_run : Bool) :
    (main fs dry_run none).2.getLast? =
      some (actionWord dry_run ++ " " ++
        toString (List.countP (fun b => b)
          (batchFlags dry_run fs (sortPaths (rglobHtml fs)))) ++ "/" ++
        toString (rglobHtml fs).length ++ " posts") := by
  simp only [main]
  rw [batchAux_updated_count]
  exact getLast?_append_two _ _ _

/-- C8: deterministic traversal — batch mode enumerates the discovered
`.html` files in lexicographically sorted order (a sorted permutation of
the discovery listing), and two batch runs over stores holding the same
files with the same contents produce identical ordered console output. -/
theorem deterministic_traversal (fs fs2 : FS) (dry_run : Bool) :
    List.Sorted (· ≤ ·) (sortPaths (rglobHtml fs)) ∧
      (sortPaths (rglobHtml fs)).Perm (rglobHtml fs) ∧
      (fs.files = fs2.files →
        (main fs dry_run none).2 = (main fs2 dry_run none).2) := by
  refine ⟨List.sorted_insertionSort _ _, List.perm_insertionSort _ _, ?_⟩
  intro h
  have heq : fs = fs2 := by cases fs; cases fs2; simpa using h
  rw [heq]

theorem deterministic_traversal_witness :
    List.Sorted (· ≤ ·)
        (sortPaths (rglobHtml ⟨[("b.html", some "x"),
          ("a.html", some "y")]⟩)) ∧
      (sortPaths (rglobHtml ⟨[("b.html", some "x"),
          ("a.html", some "y")]⟩)).Perm
        (rglobHtml ⟨[("b.html", some "x"), ("a.html", some "y")]⟩) ∧
      (main ⟨[("b.html", some "x"), ("a.html", some "y")]⟩ false none).2 =
        (main ⟨[("b.html", some "x"), ("a.html", some "y")]⟩ false none).2 :=
  ⟨(deterministic_traversal ⟨[("b.html", some "x"), ("a.html", some "y")]⟩
      ⟨[("b.html", some "x"), ("a.html", some "y")]⟩ false).1,
   (deterministic_traversal ⟨[("b.html", some "x"), ("a.html", some "y")]⟩
      ⟨[("b.html", some "x"), ("a.html", some "y")]⟩ false).2.1,
   (deterministic_traversal ⟨[("b.html", some "x"), ("a.html", some "y")]⟩
      ⟨[("b.html", some "x"), ("a.html", some "y")]⟩ false).2.2 rfl⟩

/-- C9: the CTA-button example — the rewrite maps
`<a href="/x" class="cta-button" style="color:red;">Go</a>` to
`<a href="/x" class="cta-button">Go</a>` with changed = true; the href
value is carried over through the rule's captured group. -/
theorem cta_button_example :
    rewriteResult
        "<a href=\"/x\" class=\"cta-button\" style=\"color:red;\">Go</a>" =
      ("<a href=\"/x\" class=\"cta-button\">Go</a>", true) := by
  decide

/-- C10: the rewritten text is never longer than the input, and when the
changed flag is true it is strictly shorter — every rule of the table
replaces each match by a strictly shorter segment. -/
theorem rewrite_never_longer (d : String) :
    (rewriteResult d).1.length ≤ d.length ∧
      ((rewriteResult d).2 = true → (rewriteResult d).1.length < d.length) := by
  have h := applyRulesInOrder_len REPLACEMENTS replacements_ok d
  have hfold : (rewriteResult d).1 = applyRulesInOrder REPLACEMENTS d :=
    foldl_eq_applyRulesInOrder REPLACEMENTS d
  constructor
  · rcases h with heq | hlt
    · rw [hfold, heq]
    · rw [hfold]; omega
  · intro hc
    have hne : applyRulesInOrder REPLACEMENTS d ≠ d := by
      rw [← hfold]
      simpa [rewriteResult] using hc
    rcases h with heq | hlt
    · exact absurd heq hne
    · rw [hfold]; exact hlt

theorem rewrite_never_longer_witness :
    (rewriteResult "<table style=\"width:100%\">").2 = true ∧
      (rewriteResult "<table style=\"width:100%\">").1.length <
        "<table style=\"width:100%\">".length :=
  ⟨by decide,
    (rewrite_never_longer "<table style=\"width:100%\">").2 (by decide)⟩

end CleanArticle

